import Mathlib

/-!
Verification of the bibus mention-to-action orchestration pipeline.

Shallow embedding of the core operations of the repository:
* the durable Jira dedup store (`src/lib/jira/jira-state.ts`),
* the intent classifier (`determineMessageType` in the message router),
* the GitLab MCP review server's comment builder and version cache
  (`src/lib/gitlab/mcp-review-server.ts`),
* the OpenCode review-session event loop (`createReviewSession` in
  `src/lib/opencode/opencode-helper.ts`),
* the scan loop's resource-exclusion guard (`detectCommands` in
  `src/lib/watch.ts`, latest revision).

Timestamps and line numbers are embedded as `Int` (JS numbers used only at
integral values), JS `Set` objects as duplicate-free `List`s, and the
cooperatively scheduled event/scan loops as explicit folds over event lists
(each async handler runs synchronously up to its first `await`, so the
guard phases really are sequential).
-/

namespace Bibus

/-! ### Durable Jira dedup store (`src/lib/jira/jira-state.ts`) -/

/-- One entry of the durable store: `{ commentId, timestamp }`. -/
structure ProcessedComment where
  commentId : String
  timestamp : Int
  deriving DecidableEq, Repr

/-- The persisted JSON document: `{ processedComments: [...] }`. -/
structure JiraStateData where
  processedComments : List ProcessedComment
  deriving DecidableEq, Repr

/-- `isExpired(entry, maxAgeMs)`: `Date.now() - entry.timestamp > maxAgeMs`. -/
def isExpired (now maxAgeMs : Int) (e : ProcessedComment) : Bool :=
  now - e.timestamp > maxAgeMs

/-- `jiraState.getProcessedComments()`: filters expired entries, returns the
set of valid ids, and rewrites the store iff some entry was dropped
(lazy compaction).  Result: `(validIds, storeAfterwards, wroteStoreFile)`. -/
def getProcessedComments (now maxAge : Int) (data : JiraStateData) :
    List String × JiraStateData × Bool :=
  let validEntries := data.processedComments.filter (fun e => !isExpired now maxAge e)
  let validIds := validEntries.map (fun e => e.commentId)
  let wrote := validEntries.length != data.processedComments.length
  (validIds, if wrote then ⟨validEntries⟩ else data, wrote)

/-- `jiraState.isProcessed(commentId)`: membership in the valid-id set. -/
def isProcessed (now maxAge : Int) (data : JiraStateData) (commentId : String) : Bool :=
  (getProcessedComments now maxAge data).1.contains commentId

/-- The list transformation of `jiraState.markProcessed`: refresh the
timestamp of the first entry whose `commentId` matches (the source's
`findIndex` + in-place update), otherwise push a fresh entry at the end. -/
def markProcessedList (now : Int) (id : String) : List ProcessedComment → List ProcessedComment
  | [] => [⟨id, now⟩]
  | e :: rest =>
    if e.commentId = id then ⟨e.commentId, now⟩ :: rest
    else e :: markProcessedList now id rest

/-- `jiraState.markProcessed(commentId)` on the whole store document. -/
def markProcessed (now : Int) (data : JiraStateData) (id : String) : JiraStateData :=
  ⟨markProcessedList now id data.processedComments⟩

theorem contains_iff_mem {α : Type} [BEq α] [LawfulBEq α] (l : List α) (a : α) :
    l.contains a = true ↔ a ∈ l :=
  ⟨List.mem_of_elem_eq_true, List.elem_eq_true_of_mem⟩

theorem markProcessedList_map_of_mem (now : Int) (id : String) (l : List ProcessedComment)
    (h : id ∈ l.map (fun e => e.commentId)) :
    (markProcessedList now id l).map (fun e => e.commentId) = l.map (fun e => e.commentId) := by
  induction l with
  | nil => simp at h
  | cons e rest ih =>
    by_cases hc : e.commentId = id
    · simp [markProcessedList, hc]
    · have hrest : id ∈ rest.map (fun e => e.commentId) := by
        rcases (by simpa using h) with h' | h'
        · exact absurd h'.symm hc
        · simpa using h'
      simp [markProcessedList, hc, ih hrest]

theorem markProcessedList_of_not_mem (now : Int) (id : String) (l : List ProcessedComment)
    (h : id ∉ l.map (fun e => e.commentId)) :
    markProcessedList now id l = l ++ [⟨id, now⟩] := by
  induction l with
  | nil => simp [markProcessedList]
  | cons e rest ih =>
    have hc : ¬ e.commentId = id := fun he => h (by simp [he])
    have hrest : id ∉ rest.map (fun e => e.commentId) := fun hm => h (by simp [hm])
    simp [markProcessedList, hc, ih hrest]

theorem markProcessedList_self_mem (now : Int) (id : String) (l : List ProcessedComment) :
    ProcessedComment.mk id now ∈ markProcessedList now id l := by
  induction l with
  | nil => simp [markProcessedList]
  | cons e rest ih =>
    by_cases hc : e.commentId = id
    · simp [markProcessedList, hc]
    · simp [markProcessedList, hc]
      right
      exact ih

theorem markProcessedList_nodup (now : Int) (id : String) (l : List ProcessedComment)
    (h : (l.map (fun e => e.commentId)).Nodup) :
    ((markProcessedList now id l).map (fun e => e.commentId)).Nodup := by
  by_cases hm : id ∈ l.map (fun e => e.commentId)
  · rw [markProcessedList_map_of_mem now id l hm]
    exact h
  · rw [markProcessedList_of_not_mem now id l hm, List.map_append]
    apply List.Nodup.append h (by simp)
    intro a ha hb
    simp at hb
    subst hb
    exact hm ha

/-- C4: a stored entry older than the max-age reports `isProcessed == false`;
any read finding at least one expired entry rewrites the store with exactly
the unexpired entries (lazy compaction), and a read finding none leaves the
store unmodified. -/
theorem getProcessedComments_expiry_and_compaction
    (now maxAge : Int) (data : JiraStateData) (id : String) :
    ((∀ e ∈ data.processedComments, e.commentId = id → isExpired now maxAge e = true) →
      isProcessed now maxAge data id = false)
    ∧ ((∃ e ∈ data.processedComments, isExpired now maxAge e = true) →
        (getProcessedComments now maxAge data).2.1.processedComments
            = data.processedComments.filter (fun e => !isExpired now maxAge e)
        ∧ (getProcessedComments now maxAge data).2.2 = true)
    ∧ ((∀ e ∈ data.processedComments, isExpired now maxAge e = false) →
        (getProcessedComments now maxAge data).2.1 = data
        ∧ (getProcessedComments now maxAge data).2.2 = false) := by
  refine ⟨?_, ?_, ?_⟩
  · intro h
    by_contra hb
    rw [Bool.not_eq_false] at hb
    have hmem : id ∈ (getProcessedComments now maxAge data).1 :=
      (contains_iff_mem _ _).mp hb
    simp only [getProcessedComments, List.mem_map, List.mem_filter] at hmem
    obtain ⟨e, ⟨hel, hvalid⟩, hid⟩ := hmem
    rw [h e hel hid] at hvalid
    simp at hvalid
  · rintro ⟨e, hel, hexp⟩
    have hlt : (data.processedComments.filter (fun e => !isExpired now maxAge e)).length
        < data.processedComments.length :=
      List.length_filter_lt_length_iff_exists.mpr ⟨e, hel, by simp [hexp]⟩
    have hne : ((data.processedComments.filter (fun e => !isExpired now maxAge e)).length
        != data.processedComments.length) = true :=
      bne_iff_ne.mpr (Nat.ne_of_lt hlt)
    simp [getProcessedComments, hne]
  · intro h
    have hf : data.processedComments.filter (fun e => !isExpired now maxAge e)
        = data.processedComments :=
      List.filter_eq_self.mpr (fun a ha => by simp [h a ha])
    simp [getProcessedComments, hf]

/-- C4 witness: an entry 8 days old under a 7-day max-age is not processed and
gets compacted away; a fresh store is left untouched. -/
theorem getProcessedComments_expiry_and_compaction_witness :
    (∀ e ∈ (JiraStateData.mk [⟨"c1", 0⟩]).processedComments, e.commentId = "c1" →
        isExpired (8 * 24 * 60 * 60 * 1000) (7 * 24 * 60 * 60 * 1000) e = true)
    ∧ isProcessed (8 * 24 * 60 * 60 * 1000) (7 * 24 * 60 * 60 * 1000)
        (JiraStateData.mk [⟨"c1", 0⟩]) "c1" = false
    ∧ (getProcessedComments (8 * 24 * 60 * 60 * 1000) (7 * 24 * 60 * 60 * 1000)
        (JiraStateData.mk [⟨"c1", 0⟩])).2.2 = true
    ∧ (getProcessedComments 1000 (7 * 24 * 60 * 60 * 1000)
        (JiraStateData.mk [⟨"c1", 0⟩])).2.2 = false := by
  refine ⟨by decide, ?_, ?_, ?_⟩
  · exact (getProcessedComments_expiry_and_compaction (8 * 24 * 60 * 60 * 1000)
      (7 * 24 * 60 * 60 * 1000) (JiraStateData.mk [⟨"c1", 0⟩]) "c1").1 (by decide)
  · exact ((getProcessedComments_expiry_and_compaction (8 * 24 * 60 * 60 * 1000)
      (7 * 24 * 60 * 60 * 1000) (JiraStateData.mk [⟨"c1", 0⟩]) "c1").2.1
      ⟨⟨"c1", 0⟩, by decide, by decide⟩).2
  · exact ((getProcessedComments_expiry_and_compaction 1000
      (7 * 24 * 60 * 60 * 1000) (JiraStateData.mk [⟨"c1", 0⟩]) "c1").2.2 (by decide)).2

/-- C10: `markProcessed` keeps the store free of duplicate ids (refreshing the
matching entry in place when one exists, appending exactly one new entry
otherwise), and immediately afterwards `isProcessed(id)` holds. -/
theorem markProcessed_nodup_and_processed
    (now maxAge : Int) (data : JiraStateData) (id : String)
    (hnd : (data.processedComments.map (fun e => e.commentId)).Nodup) :
    ((markProcessed now data id).processedComments.map (fun e => e.commentId)).Nodup
    ∧ (id ∈ data.processedComments.map (fun e => e.commentId) →
        (markProcessed now data id).processedComments.map (fun e => e.commentId)
          = data.processedComments.map (fun e => e.commentId))
    ∧ (id ∉ data.processedComments.map (fun e => e.commentId) →
        (markProcessed now data id).processedComments
          = data.processedComments ++ [⟨id, now⟩])
    ∧ ProcessedComment.mk id now ∈ (markProcessed now data id).processedComments
    ∧ (0 ≤ maxAge → isProcessed now maxAge (markProcessed now data id) id = true) := by
  refine ⟨markProcessedList_nodup now id _ hnd,
    markProcessedList_map_of_mem now id _,
    markProcessedList_of_not_mem now id _,
    markProcessedList_self_mem now id _, ?_⟩
  intro hmax
  have hfresh : isExpired now maxAge ⟨id, now⟩ = false := by
    simp only [isExpired]
    simp
    omega
  have hmem : ProcessedComment.mk id now ∈ (markProcessed now data id).processedComments :=
    markProcessedList_self_mem now id _
  apply (contains_iff_mem _ _).mpr
  simp only [getProcessedComments, List.mem_map, List.mem_filter]
  exact ⟨⟨id, now⟩, ⟨hmem, by simp [hfresh]⟩, rfl⟩

/-- C10 witness: marking a fresh id on a small duplicate-free store. -/
theorem markProcessed_nodup_and_processed_witness :
    (((JiraStateData.mk [⟨"a", 5⟩]).processedComments.map (fun e => e.commentId)).Nodup
      ∧ (0 : Int) ≤ 100)
    ∧ (markProcessed 10 (JiraStateData.mk [⟨"a", 5⟩]) "b").processedComments
        = [⟨"a", 5⟩, ⟨"b", 10⟩]
    ∧ isProcessed 10 100 (markProcessed 10 (JiraStateData.mk [⟨"a", 5⟩]) "b") "b" = true := by
  refine ⟨⟨by decide, by decide⟩, ?_, ?_⟩
  · exact (markProcessed_nodup_and_processed 10 100 (JiraStateData.mk [⟨"a", 5⟩]) "b"
      (by decide)).2.2.1 (by decide)
  · exact (markProcessed_nodup_and_processed 10 100 (JiraStateData.mk [⟨"a", 5⟩]) "b"
      (by decide)).2.2.2.2 (by decide)

/-! ### Intent classifier (`determineMessageType` in the message router,
latest revision with a `platform` parameter) -/

/-- The two platforms the router serves. -/
inductive Platform
  | gitlab
  | jira
  deriving DecidableEq, Repr

/-- `GITLAB_COMMANDS`, in declared order. -/
def GITLAB_COMMANDS : List String := ["review", "test", "general_question"]

/-- `JIRA_COMMANDS`, in declared order. -/
def JIRA_COMMANDS : List String := ["analyze-bug", "create-mr", "general_question"]

/-- `platform === "gitlab" ? GITLAB_COMMANDS : JIRA_COMMANDS`. -/
def commandsFor : Platform → List String
  | .gitlab => GITLAB_COMMANDS
  | .jira => JIRA_COMMANDS

/-- `needle` occurs at the start of `hay` (both as char lists). -/
def isPrefixOfChars : List Char → List Char → Bool
  | _, [] => true
  | [], _ :: _ => false
  | a :: as, b :: bs => a == b && isPrefixOfChars as bs

/-- `needle` occurs somewhere inside `hay` (both as char lists). -/
def containsChars (needle : List Char) : List Char → Bool
  | [] => needle.isEmpty
  | a :: as => isPrefixOfChars (a :: as) needle || containsChars needle as

/-- JS `hay.includes(needle)`: substring containment. -/
def includesSubstr (hay needle : String) : Bool :=
  containsChars needle.data hay.data

/-- JS `response.toLowerCase()`: lowercase each character. -/
def toLowerStr (s : String) : String :=
  ⟨s.data.map Char.toLower⟩

/-- The `for (const command of commands)` loop of `determineMessageType`:
return the first command occurring in the lowercased response, else fall
through to the `general_question` default. -/
def routeLoop (lowerResponse : String) : List String → String
  | [] => "general_question"
  | c :: rest =>
    if includesSubstr lowerResponse c then c else routeLoop lowerResponse rest

/-- `determineMessageType(message, platform)` applied to the classifier
response text (the AI call itself is external). -/
def determineMessageType (response : String) (platform : Platform) : String :=
  routeLoop (toLowerStr response) (commandsFor platform)

theorem routeLoop_eq_find (lowerResponse : String) (cmds : List String) :
    routeLoop lowerResponse cmds
      = ((cmds.find? (fun c => includesSubstr lowerResponse c)).getD "general_question") := by
  induction cmds with
  | nil => rfl
  | cons c rest ih =>
    by_cases hc : includesSubstr lowerResponse c = true
    · simp [routeLoop, List.find?, hc]
    · rw [Bool.not_eq_true] at hc
      simp [routeLoop, List.find?, hc, ih]

/-- C5: the classifier lowercases the response and returns the first intent,
in the platform's declared order, whose keyword occurs as a substring; if no
keyword of the platform occurs, it returns the `general_question` default. -/
theorem determineMessageType_first_match_or_default (response : String) (platform : Platform) :
    determineMessageType response platform
      = (((commandsFor platform).find?
          (fun c => includesSubstr (toLowerStr response) c)).getD "general_question")
    ∧ ((∀ c ∈ commandsFor platform, includesSubstr (toLowerStr response) c = false) →
        determineMessageType response platform = "general_question") := by
  refine ⟨routeLoop_eq_find (toLowerStr response) (commandsFor platform), fun h => ?_⟩
  rw [determineMessageType, routeLoop_eq_find]
  rw [List.find?_eq_none.mpr (fun c hc => by simp [h c hc])]
  rfl

/-- C5 witness: a response naming no GitLab keyword falls back to the
default, and a response naming `review` resolves to `review`. -/
theorem determineMessageType_first_match_or_default_witness :
    (∀ c ∈ commandsFor Platform.gitlab, includesSubstr (toLowerStr "Hello!") c = false)
    ∧ determineMessageType "Hello!" Platform.gitlab = "general_question"
    ∧ determineMessageType "Please REVIEW this MR" Platform.gitlab = "review" := by
  refine ⟨by decide, ?_, ?_⟩
  · exact (determineMessageType_first_match_or_default "Hello!" Platform.gitlab).2 (by decide)
  · rw [(determineMessageType_first_match_or_default "Please REVIEW this MR" Platform.gitlab).1]
    decide

/-! ### GitLab MCP review server (`src/lib/gitlab/mcp-review-server.ts`) -/

/-- Severity of a review finding. -/
inductive Severity
  | critical
  | warning
  | suggestion
  | praise
  deriving DecidableEq, Repr

/-- `ReviewCommentParams` after the server's `undefined → null` conversion:
absent optional fields are `none`. -/
structure ReviewCommentParams where
  file : Option String
  line : Option Int
  severity : Severity
  comment : String
  suggestedCode : Option String
  suggestionLinesAbove : Option Int
  suggestionLinesBelow : Option Int
  projectId : Int
  mrIid : Int
  deriving DecidableEq, Repr

/-- The `severityEmoji` lookup table. -/
def severityEmoji : Severity → String
  | .critical => "🔴 **CRITICAL**"
  | .warning => "🟡 **Warning**"
  | .suggestion => "💡 **Suggestion**"
  | .praise => "✅ **Good**"

/-- JS truthiness of the optional `file` field: `null`/`undefined` and the
empty string are falsy. -/
def strTruthy : Option String → Bool
  | none => false
  | some s => s != ""

/-- The comment body built by `postCommentToGitLab`: severity banner, a
file mention when `params.file && params.line === null`, the comment text,
and a fenced GitLab suggestion block when
`params.suggestedCode !== null && params.file && params.line !== null`. -/
def buildBody (params : ReviewCommentParams) : String :=
  let body := severityEmoji params.severity
  let body :=
    if strTruthy params.file && params.line == none then
      body ++ " in `" ++ params.file.getD "" ++ "`"
    else body
  let body := body ++ "\n\n" ++ params.comment
  if params.suggestedCode != none && strTruthy params.file && params.line != none then
    body ++ "\n\n```suggestion:-" ++ toString (params.suggestionLinesAbove.getD 0)
      ++ "+" ++ toString (params.suggestionLinesBelow.getD 0)
      ++ "\n" ++ params.suggestedCode.getD "" ++ "\n```"
  else body

/-- One entry of `GET /merge_requests/:iid/versions`. -/
structure MergeRequestVersion where
  base_commit_sha : String
  start_commit_sha : String
  head_commit_sha : String
  deriving DecidableEq, Repr

/-- The positioned-comment descriptor sent to GitLab. -/
structure DiffPosition where
  base_sha : String
  start_sha : String
  head_sha : String
  old_path : String
  new_path : String
  new_line : Int
  deriving DecidableEq, Repr

/-- The discussion-creation request `postCommentToGitLab` dispatches. -/
structure CommentRequest where
  body : String
  position : Option DiffPosition
  deriving DecidableEq, Repr

/-- `postCommentToGitLab(params)` with the resolved MR version passed in:
a positioned discussion when `params.file && params.line !== null`, a plain
discussion otherwise. -/
def postCommentToGitLab (params : ReviewCommentParams)
    (version : MergeRequestVersion) : CommentRequest :=
  if strTruthy params.file && params.line != none then
    { body := buildBody params
      position := some
        { base_sha := version.base_commit_sha
          start_sha := version.start_commit_sha
          head_sha := version.head_commit_sha
          old_path := params.file.getD ""
          new_path := params.file.getD ""
          new_line := params.line.getD 0 } }
  else
    { body := buildBody params, position := none }

/-- C6 counterexample: a Finding with `suggestedCode = ""` and
`linesAbove = linesBelow = 1` but no file/line position. -/
def c6Params : ReviewCommentParams :=
  { file := none, line := none, severity := .suggestion, comment := "c"
    suggestedCode := some "", suggestionLinesAbove := some 1
    suggestionLinesBelow := some 1, projectId := 1, mrIid := 2 }

/-- C6 counterexample: `suggestedCode` is present (the empty string) and
`linesAbove = linesBelow = 1`, yet the body built for the finding contains
no fenced suggestion block at all, because the finding carries no file/line:
the code only emits the block under
`params.suggestedCode !== null && params.file && params.line !== null`. -/
theorem suggestion_block_missing_without_position :
    c6Params.suggestedCode = some ""
    ∧ c6Params.suggestionLinesAbove = some 1
    ∧ c6Params.suggestionLinesBelow = some 1
    ∧ includesSubstr (buildBody c6Params) "```suggestion" = false := by
  refine ⟨rfl, rfl, rfl, ?_⟩
  decide

/-- C6 (amended): for a Finding with a present (non-empty) file, a present
line, and a present `suggestedCode` (the empty string allowed), the body
embeds a fenced block whose header encodes
`suggestion:-{linesAbove}+{linesBelow}` with the omitted counts defaulting
to `0`, and whose payload is exactly `suggestedCode`. -/
theorem buildBody_suggestion_block (params : ReviewCommentParams)
    (f : String) (n : Int) (sc : String)
    (hf : params.file = some f) (hfne : f ≠ "") (hl : params.line = some n)
    (hsc : params.suggestedCode = some sc) :
    buildBody params
      = severityEmoji params.severity ++ "\n\n" ++ params.comment
        ++ "\n\n```suggestion:-" ++ toString (params.suggestionLinesAbove.getD 0)
        ++ "+" ++ toString (params.suggestionLinesBelow.getD 0)
        ++ "\n" ++ sc ++ "\n```" := by
  have hft : strTruthy (some f) = true := by
    simpa [strTruthy] using bne_iff_ne.mpr hfne
  simp [buildBody, hft, hf, hl, hsc]

/-- C6 witness: `suggestedCode=""`, `linesAbove=1`, `linesBelow=1` on line 3
of `a.ts` renders a block with header `-1+1` and empty payload. -/
theorem buildBody_suggestion_block_witness :
    buildBody
      { file := some "a.ts", line := some 3, severity := .warning, comment := "drop this"
        suggestedCode := some "", suggestionLinesAbove := some 1
        suggestionLinesBelow := some 1, projectId := 1, mrIid := 2 }
      = "🟡 **Warning**" ++ "\n\n" ++ "drop this"
        ++ "\n\n```suggestion:-" ++ "1" ++ "+" ++ "1" ++ "\n" ++ "" ++ "\n```" := by
  rw [buildBody_suggestion_block _ "a.ts" 3 ""
    rfl (by decide) rfl rfl]
  rfl

/-- C7 counterexample: a Finding whose `file` is present but equal to the
empty string and whose `line` is present is dispatched as a thread-level
comment (no position), because JS truthiness treats `""` as absent. -/
def c7Params : ReviewCommentParams :=
  { file := some "", line := some 5, severity := .warning, comment := "c"
    suggestedCode := none, suggestionLinesAbove := none
    suggestionLinesBelow := none, projectId := 1, mrIid := 2 }

/-- C7 counterexample: `file` and `line` are both present, yet the dispatched
comment carries no positioned descriptor. -/
theorem positioned_comment_missing_for_empty_file :
    c7Params.file.isSome = true
    ∧ c7Params.line.isSome = true
    ∧ (postCommentToGitLab c7Params ⟨"b", "s", "h"⟩).position = none := by
  refine ⟨rfl, rfl, ?_⟩
  decide

/-- C7 (amended): with a present non-empty file and a present line the
comment is positioned at `{baseSha, startSha, headSha, path=file, line}`;
otherwise (file absent, file empty, or line absent) it is thread-level, and
with a present non-empty file but no line the file path is mentioned in the
body text. -/
theorem postCommentToGitLab_position_spec (params : ReviewCommentParams)
    (version : MergeRequestVersion) :
    (∀ f n, params.file = some f → f ≠ "" → params.line = some n →
      (postCommentToGitLab params version).position
        = some ⟨version.base_commit_sha, version.start_commit_sha,
            version.head_commit_sha, f, f, n⟩)
    ∧ ((strTruthy params.file = false ∨ params.line = none) →
        (postCommentToGitLab params version).position = none)
    ∧ (∀ f, params.file = some f → f ≠ "" → params.line = none →
        (postCommentToGitLab params version).body
          = severityEmoji params.severity ++ " in `" ++ f ++ "`"
            ++ "\n\n" ++ params.comment) := by
  refine ⟨?_, ?_, ?_⟩
  · intro f n hf hfne hl
    have hft : strTruthy (some f) = true := by
      simpa [strTruthy] using bne_iff_ne.mpr hfne
    simp [postCommentToGitLab, hft, hf, hl]
  · intro h
    rcases h with h | h
    · simp [postCommentToGitLab, h]
    · simp [postCommentToGitLab, h]
  · intro f hf hfne hl
    have hft : strTruthy (some f) = true := by
      simpa [strTruthy] using bne_iff_ne.mpr hfne
    simp [postCommentToGitLab, buildBody, hft, hf, hl]

/-- C7 witness: a finding on `a.ts:3` is positioned at the resolved version;
one with a file but no line mentions the path in the body. -/
theorem postCommentToGitLab_position_spec_witness :
    (postCommentToGitLab
      { file := some "a.ts", line := some 3, severity := .praise, comment := "nice"
        suggestedCode := none, suggestionLinesAbove := none
        suggestionLinesBelow := none, projectId := 1, mrIid := 2 }
      ⟨"b", "s", "h"⟩).position = some ⟨"b", "s", "h", "a.ts", "a.ts", 3⟩
    ∧ (postCommentToGitLab
      { file := some "a.ts", line := none, severity := .praise, comment := "nice"
        suggestedCode := none, suggestionLinesAbove := none
        suggestionLinesBelow := none, projectId := 1, mrIid := 2 }
      ⟨"b", "s", "h"⟩).body
        = severityEmoji .praise ++ " in `" ++ "a.ts" ++ "`" ++ "\n\n" ++ "nice" := by
  constructor
  · exact (postCommentToGitLab_position_spec _ ⟨"b", "s", "h"⟩).1 "a.ts" 3
      rfl (by decide) rfl
  · exact (postCommentToGitLab_position_spec _ ⟨"b", "s", "h"⟩).2.2 "a.ts"
      rfl (by decide) rfl

/-! ### MR version cache (`getMRVersion` in `mcp-review-server.ts`) -/

/-- The module-level `mrVersionCache: Map<string, MergeRequestVersion>`,
keyed by `"projectId-mrIid"`. -/
abbrev VersionCache := List (String × MergeRequestVersion)

/-- `mrVersionCache.get(cacheKey)`. -/
def lookupCache (cache : VersionCache) (k : String) : Option MergeRequestVersion :=
  (cache.find? (fun p => p.1 == k)).map (fun p => p.2)

/-- `getMRVersion(projectId, mrIid)` with the platform's current response
passed in as `upstream`: return the cached version if present, otherwise
fetch the latest upstream version (throwing when there is none) and cache
it.  The `Bool` records whether the platform was contacted. -/
def getMRVersion (cache : VersionCache) (key : String)
    (upstream : List MergeRequestVersion) :
    Except String (MergeRequestVersion × VersionCache × Bool) :=
  match lookupCache cache key with
  | some v => .ok (v, cache, false)
  | none =>
    match upstream with
    | [] => .error "No MR versions found"
    | v :: _ => .ok (v, (key, v) :: cache, true)

/-- A review pass: a sequence of `getMRVersion` calls, each made while the
platform would currently answer with its own `upstream` list (upstream may
change mid-pass).  Records, per call, the key and the outcome together with
the contacted-platform flag. -/
def runVersionCalls (cache : VersionCache) :
    List (String × List MergeRequestVersion) →
      List (String × Except String (MergeRequestVersion × Bool))
  | [] => []
  | (k, up) :: rest =>
    match getMRVersion cache k up with
    | .ok (v, cache2, fetched) => (k, .ok (v, fetched)) :: runVersionCalls cache2 rest
    | .error e => (k, .error e) :: runVersionCalls cache rest

theorem lookupCache_cons_ne (k k2 : String) (v2 : MergeRequestVersion)
    (cache : VersionCache) (h : k2 ≠ k) :
    lookupCache ((k2, v2) :: cache) k = lookupCache cache k := by
  have hb : (k2 == k) = false := beq_eq_false_iff_ne.mpr h
  simp [lookupCache, List.find?_cons, hb]

theorem getMRVersion_hit (cache : VersionCache) (k : String)
    (up : List MergeRequestVersion) (v : MergeRequestVersion)
    (h : lookupCache cache k = some v) :
    getMRVersion cache k up = .ok (v, cache, false) := by
  rw [getMRVersion.eq_def, h]

theorem getMRVersion_miss (cache : VersionCache) (k : String)
    (u : MergeRequestVersion) (us : List MergeRequestVersion)
    (h : lookupCache cache k = none) :
    getMRVersion cache k (u :: us) = .ok (u, (k, u) :: cache, true) := by
  rw [getMRVersion.eq_def, h]

theorem getMRVersion_other_key (cache : VersionCache) (k2 k : String)
    (up : List MergeRequestVersion) (hne : k2 ≠ k)
    (v2 : MergeRequestVersion) (cache2 : VersionCache) (fetched : Bool)
    (hok : getMRVersion cache k2 up = .ok (v2, cache2, fetched)) :
    lookupCache cache2 k = lookupCache cache k := by
  rcases hl : lookupCache cache k2 with _ | v3
  · cases up with
    | nil =>
      rw [getMRVersion.eq_def, hl] at hok
      simp at hok
    | cons u us =>
      rw [getMRVersion_miss cache k2 u us hl] at hok
      injection hok with h1
      injection h1 with ha hb
      injection hb with hb1 hb2
      rw [← hb1]
      exact lookupCache_cons_ne k k2 u cache hne
  · rw [getMRVersion_hit cache k2 up v3 hl] at hok
    injection hok with h1
    injection h1 with ha hb
    injection hb with hb1 hb2
    rw [← hb1]

theorem runVersionCalls_cached (k : String) (v : MergeRequestVersion)
    (calls : List (String × List MergeRequestVersion)) :
    ∀ cache : VersionCache, lookupCache cache k = some v →
      ∀ r ∈ runVersionCalls cache calls, r.1 = k → r.2 = .ok (v, false) := by
  induction calls with
  | nil => intro cache _ r hr; simp [runVersionCalls] at hr
  | cons call rest ih =>
    intro cache hc r hr hk
    obtain ⟨k2, up⟩ := call
    by_cases hkk : k2 = k
    · subst hkk
      rw [runVersionCalls, getMRVersion_hit cache k2 up v hc] at hr
      rcases (by simpa using hr) with h1 | h1
      · rw [h1]
      · exact ih cache hc r h1 hk
    · rw [runVersionCalls] at hr
      rcases hup : getMRVersion cache k2 up with e | cv
      · rw [hup] at hr
        rcases (by simpa using hr) with h1 | h1
        · rw [h1] at hk
          exact absurd hk hkk
        · exact ih cache hc r h1 hk
      · obtain ⟨v2, cache2, fetched⟩ := cv
        rw [hup] at hr
        rcases (by simpa using hr) with h1 | h1
        · rw [h1] at hk
          exact absurd hk hkk
        · have hc2 : lookupCache cache2 k = some v :=
            (getMRVersion_other_key cache k2 k up hkk v2 cache2 fetched hup).trans hc
          exact ih cache2 hc2 r h1 hk

/-- C8: within one review pass, once the first `getMRVersion` call for a
resource succeeds, the `{base, start, head}` triple is cached: the first
call contacts the platform, and every later call for the same resource in
the pass returns the identical triple without contacting the platform, even
if upstream answers change mid-pass. -/
theorem getMRVersion_cached_once_per_pass
    (cache : VersionCache) (calls : List (String × List MergeRequestVersion))
    (k : String) (up : List MergeRequestVersion) (v : MergeRequestVersion)
    (hmiss : lookupCache cache k = none) (hup : up.head? = some v) :
    (runVersionCalls cache ((k, up) :: calls)).head? = some (k, .ok (v, true))
    ∧ ∀ r ∈ (runVersionCalls cache ((k, up) :: calls)).tail,
        r.1 = k → r.2 = .ok (v, false) := by
  cases up with
  | nil => simp at hup
  | cons u us =>
    have hv : u = v := by simpa using hup
    rw [runVersionCalls, getMRVersion_miss cache k u us hmiss, hv]
    have hself : lookupCache ((k, v) :: cache) k = some v := by
      simp [lookupCache, List.find?_cons]
    exact ⟨rfl, fun r hr hk => runVersionCalls_cached k v calls ((k, v) :: cache) hself r hr hk⟩

/-- C8 witness: two calls for the same resource in one pass, with upstream
changing between them, both return the first resolved triple and only the
first contacts the platform. -/
theorem getMRVersion_cached_once_per_pass_witness :
    lookupCache [] "7-42" = none
    ∧ (runVersionCalls []
        [("7-42", [⟨"b1", "s1", "h1"⟩]), ("7-42", [⟨"b2", "s2", "h2"⟩])]).head?
        = some ("7-42", .ok (⟨"b1", "s1", "h1"⟩, true))
    ∧ ∀ r ∈ (runVersionCalls []
        [("7-42", [⟨"b1", "s1", "h1"⟩]), ("7-42", [⟨"b2", "s2", "h2"⟩])]).tail,
        r.1 = "7-42" → r.2 = .ok (⟨"b1", "s1", "h1"⟩, false) := by
  refine ⟨rfl, ?_, ?_⟩
  · exact (getMRVersion_cached_once_per_pass [] [("7-42", [⟨"b2", "s2", "h2"⟩])]
      "7-42" [⟨"b1", "s1", "h1"⟩] ⟨"b1", "s1", "h1"⟩ rfl rfl).1
  · exact (getMRVersion_cached_once_per_pass [] [("7-42", [⟨"b2", "s2", "h2"⟩])]
      "7-42" [⟨"b1", "s1", "h1"⟩] ⟨"b1", "s1", "h1"⟩ rfl rfl).2

/-! ### OpenCode review-session event loop
(`createReviewSession` in `src/lib/opencode/opencode-helper.ts`) -/

/-- The state of a tool part inside a `message.part.updated` event. -/
inductive ToolState
  | completed (input : ReviewCommentParams)
  | errored (err : String)
  | running
  deriving DecidableEq, Repr

/-- The `part` payload of a `message.part.updated` event. -/
inductive MessagePart
  | text (sessionID content : String) (timeEnd : Bool)
  | tool (sessionID tool callID : String) (state : ToolState)
  deriving DecidableEq, Repr

/-- The events the review-session loop dispatches on; every event kind the
loop ignores is collapsed into `other`. -/
inductive OpencodeEvent
  | partUpdated (part : MessagePart)
  | sessionIdle (sessionID : String)
  | sessionError (sessionID err : String)
  | other
  deriving DecidableEq, Repr

/-- The mutable state of `createReviewSession`'s event loop:
`responseText`, `commentCount`, the `processedToolCalls` set, the captured
`error`, and whether the `for await` loop has `break`ed. -/
structure ReviewSessionState where
  responseText : String
  commentCount : Nat
  processedToolCalls : List String
  error : Option String
  finished : Bool
  deriving DecidableEq, Repr

/-- Loop state before the first event. -/
def initialReviewState : ReviewSessionState :=
  { responseText := "", commentCount := 0, processedToolCalls := []
    error := none, finished := false }

/-- One iteration of the `for await (const event of events.stream)` loop of
`createReviewSession`: parts of other sessions are skipped, finished text
parts are appended, a completed `post_review_comment` tool part is counted
only when its `callID` is not yet in `processedToolCalls`, `session.idle`
breaks the loop, and `session.error` records the error and breaks.  After a
break (`finished`) no further event is consumed. -/
def reviewStep (sessionId : String) (s : ReviewSessionState) (e : OpencodeEvent) :
    ReviewSessionState :=
  if s.finished then s
  else
    match e with
    | .partUpdated (.text sid content timeEnd) =>
      if sid != sessionId then s
      else if timeEnd then { s with responseText := s.responseText ++ content }
      else s
    | .partUpdated (.tool sid tool callID st) =>
      if sid != sessionId then s
      else if tool == "post_review_comment" then
        match st with
        | .completed _ =>
          if s.processedToolCalls.contains callID then s
          else { s with processedToolCalls := s.processedToolCalls ++ [callID]
                        commentCount := s.commentCount + 1 }
        | .errored _ => s
        | .running => s
      else s
    | .sessionIdle sid => if sid == sessionId then { s with finished := true } else s
    | .sessionError sid err =>
      if sid == sessionId then
        { s with error := some ("Session error: " ++ err), finished := true }
      else s
    | .other => s

/-- The whole event loop over a delivered event sequence. -/
def runReviewSession (sessionId : String) (events : List OpencodeEvent) :
    ReviewSessionState :=
  events.foldl (reviewStep sessionId) initialReviewState

/-- What `createReviewSession` returns to its caller: the captured error is
rethrown, otherwise `{responseText, commentCount}`. -/
def createReviewSessionResult (sessionId : String) (events : List OpencodeEvent) :
    Except String (String × Nat) :=
  let s := runReviewSession sessionId events
  match s.error with
  | some e => .error e
  | none => .ok (s.responseText, s.commentCount)

theorem reviewStep_finished (sessionId : String) (s : ReviewSessionState)
    (h : s.finished = true) (e : OpencodeEvent) : reviewStep sessionId s e = s := by
  simp [reviewStep, h]

theorem foldl_reviewStep_finished (sessionId : String) (s : ReviewSessionState)
    (h : s.finished = true) (es : List OpencodeEvent) :
    es.foldl (reviewStep sessionId) s = s := by
  induction es with
  | nil => rfl
  | cons e rest ih =>
    rw [List.foldl_cons, reviewStep_finished sessionId s h e]
    exact ih

theorem reviewStep_processed_extend (sessionId : String) (s : ReviewSessionState)
    (e : OpencodeEvent) :
    ∃ l, (reviewStep sessionId s e).processedToolCalls = s.processedToolCalls ++ l := by
  unfold reviewStep
  repeat' split
  all_goals first
    | exact ⟨_, rfl⟩
    | exact ⟨[], (List.append_nil _).symm⟩

/-- Invariant driving the dedup argument: the loop has finished, or the
call id is already recorded. -/
def dedupInv (c : String) (s : ReviewSessionState) : Prop :=
  s.finished = true ∨ c ∈ s.processedToolCalls

theorem dedupInv_preserved (sessionId c : String) (s : ReviewSessionState)
    (e : OpencodeEvent) (h : dedupInv c s) : dedupInv c (reviewStep sessionId s e) := by
  rcases h with h | h
  · rw [reviewStep_finished sessionId s h e]
    exact Or.inl h
  · right
    obtain ⟨l, hl⟩ := reviewStep_processed_extend sessionId s e
    rw [hl]
    exact List.mem_append_left l h

theorem dedupInv_foldl (sessionId c : String) (es : List OpencodeEvent) :
    ∀ s, dedupInv c s → dedupInv c (es.foldl (reviewStep sessionId) s) := by
  induction es with
  | nil => exact fun s h => h
  | cons a rest ih => exact fun s h => ih _ (dedupInv_preserved sessionId c s a h)

theorem reviewStep_dedup_event (sessionId c : String) (input : ReviewCommentParams)
    (s : ReviewSessionState) (h : dedupInv c s) :
    reviewStep sessionId s
      (.partUpdated (.tool sessionId "post_review_comment" c (.completed input))) = s := by
  rcases h with h | h
  · exact reviewStep_finished sessionId s h _
  · unfold reviewStep
    split
    · rfl
    · simp [h]

theorem dedupInv_after_event (sessionId c : String) (input : ReviewCommentParams)
    (s : ReviewSessionState) :
    dedupInv c (reviewStep sessionId s
      (.partUpdated (.tool sessionId "post_review_comment" c (.completed input)))) := by
  by_cases hf : s.finished = true
  · exact Or.inl (by rw [reviewStep_finished sessionId s hf]; exact hf)
  · right
    rw [Bool.not_eq_true] at hf
    by_cases hm : c ∈ s.processedToolCalls
    · simp [reviewStep, hf, hm]
    · simp [reviewStep, hf, hm]

theorem foldl_reviewStep_dedup (sessionId c : String) (input : ReviewCommentParams)
    (l1 : List OpencodeEvent) :
    ∀ (s : ReviewSessionState), dedupInv c s → ∀ l2 : List OpencodeEvent,
      (l1 ++ OpencodeEvent.partUpdated
          (.tool sessionId "post_review_comment" c (.completed input)) :: l2).foldl
          (reviewStep sessionId) s
        = (l1 ++ l2).foldl (reviewStep sessionId) s := by
  induction l1 with
  | nil =>
    intro s hs l2
    simp only [List.nil_append, List.foldl_cons]
    rw [reviewStep_dedup_event sessionId c input s hs]
  | cons a l1 ih =>
    intro s hs l2
    simp only [List.cons_append, List.foldl_cons]
    exact ih (reviewStep sessionId s a) (dedupInv_preserved sessionId c s a hs) l2

/-- C1: within one review session, a duplicate `tool-invocation-completed`
event with an already-seen `callId` leaves the loop state completely
unchanged (so deleting the duplicate from the stream changes nothing), and
the first delivery of a fresh `callId` while the loop is live counts the
finding exactly once and records the `callId`. -/
theorem review_session_tool_call_dedup (sessionId c : String)
    (input : ReviewCommentParams) (es1 es2 es3 : List OpencodeEvent) :
    runReviewSession sessionId (es1
        ++ OpencodeEvent.partUpdated
            (.tool sessionId "post_review_comment" c (.completed input)) :: es2
        ++ OpencodeEvent.partUpdated
            (.tool sessionId "post_review_comment" c (.completed input)) :: es3)
      = runReviewSession sessionId (es1
        ++ OpencodeEvent.partUpdated
            (.tool sessionId "post_review_comment" c (.completed input)) :: es2
        ++ es3)
    ∧ ((runReviewSession sessionId es1).finished = false →
        c ∉ (runReviewSession sessionId es1).processedToolCalls →
        (runReviewSession sessionId (es1
            ++ [OpencodeEvent.partUpdated
                (.tool sessionId "post_review_comment" c (.completed input))])).commentCount
          = (runReviewSession sessionId es1).commentCount + 1
        ∧ c ∈ (runReviewSession sessionId (es1
            ++ [OpencodeEvent.partUpdated
                (.tool sessionId "post_review_comment" c (.completed input))])).processedToolCalls) := by
  constructor
  · have happ : ∀ l1 l2 : List OpencodeEvent, runReviewSession sessionId (l1 ++ l2)
        = l2.foldl (reviewStep sessionId) (runReviewSession sessionId l1) := by
      intro l1 l2
      rw [runReviewSession, runReviewSession, List.foldl_append]
    have hS : dedupInv c (runReviewSession sessionId
        (es1 ++ OpencodeEvent.partUpdated
          (.tool sessionId "post_review_comment" c (.completed input)) :: es2)) := by
      rw [happ, List.foldl_cons]
      exact dedupInv_foldl sessionId c es2 _ (dedupInv_after_event sessionId c input _)
    have hlist1 : es1 ++ OpencodeEvent.partUpdated
          (.tool sessionId "post_review_comment" c (.completed input)) :: es2
        ++ OpencodeEvent.partUpdated
          (.tool sessionId "post_review_comment" c (.completed input)) :: es3
        = (es1 ++ OpencodeEvent.partUpdated
            (.tool sessionId "post_review_comment" c (.completed input)) :: es2)
          ++ OpencodeEvent.partUpdated
            (.tool sessionId "post_review_comment" c (.completed input)) :: es3 := by
      simp
    have hlist2 : es1 ++ OpencodeEvent.partUpdated
          (.tool sessionId "post_review_comment" c (.completed input)) :: es2 ++ es3
        = (es1 ++ OpencodeEvent.partUpdated
            (.tool sessionId "post_review_comment" c (.completed input)) :: es2)
          ++ es3 := by
      simp
    rw [hlist1, hlist2,
      happ (es1 ++ OpencodeEvent.partUpdated
        (.tool sessionId "post_review_comment" c (.completed input)) :: es2)
        (OpencodeEvent.partUpdated
          (.tool sessionId "post_review_comment" c (.completed input)) :: es3),
      List.foldl_cons,
      reviewStep_dedup_event sessionId c input _ hS,
      happ (es1 ++ OpencodeEvent.partUpdated
        (.tool sessionId "post_review_comment" c (.completed input)) :: es2) es3]
  · intro hfin hcon
    have h1 : runReviewSession sessionId (es1
        ++ [OpencodeEvent.partUpdated
            (.tool sessionId "post_review_comment" c (.completed input))])
        = reviewStep sessionId (runReviewSession sessionId es1)
            (OpencodeEvent.partUpdated
              (.tool sessionId "post_review_comment" c (.completed input))) := by
      rw [runReviewSession, List.foldl_append, List.foldl_cons, List.foldl_nil]
      rfl
    constructor
    · rw [h1]
      unfold reviewStep
      simp [hfin, hcon]
    · rw [h1]
      unfold reviewStep
      simp [hfin, hcon]

/-- A concrete finding used by closed instantiations of the session loop. -/
def sampleFinding : ReviewCommentParams :=
  { file := some "a.ts", line := some 3, severity := .warning, comment := "w"
    suggestedCode := none, suggestionLinesAbove := none, suggestionLinesBelow := none
    projectId := 1, mrIid := 2 }

/-- C1 witness: delivering the same completed tool call twice counts one
comment, and the duplicated stream equals the deduplicated one. -/
theorem review_session_tool_call_dedup_witness :
    ((runReviewSession "s" []).finished = false
      ∧ "call1" ∉ (runReviewSession "s" []).processedToolCalls)
    ∧ (runReviewSession "s" ([]
        ++ [OpencodeEvent.partUpdated
            (.tool "s" "post_review_comment" "call1" (.completed sampleFinding))])).commentCount
        = (runReviewSession "s" []).commentCount + 1
    ∧ runReviewSession "s" ([]
        ++ OpencodeEvent.partUpdated
            (.tool "s" "post_review_comment" "call1" (.completed sampleFinding)) :: []
        ++ OpencodeEvent.partUpdated
            (.tool "s" "post_review_comment" "call1" (.completed sampleFinding)) :: [])
      = runReviewSession "s" ([]
        ++ OpencodeEvent.partUpdated
            (.tool "s" "post_review_comment" "call1" (.completed sampleFinding)) :: []
        ++ []) := by
  refine ⟨⟨rfl, by simp [runReviewSession, initialReviewState]⟩, ?_, ?_⟩
  · exact ((review_session_tool_call_dedup "s" "call1" sampleFinding [] [] []).2 rfl
      (by simp [runReviewSession, initialReviewState])).1
  · exact (review_session_tool_call_dedup "s" "call1" sampleFinding [] [] []).1

/-- C9: a `session-error` event for the session terminates the loop, the
error is rethrown to the caller of the workflow, and the comment count
never moves past its value at the moment of the error — no finding is
dispatched from that point forward. -/
theorem review_session_error_terminates (sessionId err : String)
    (es1 es2 : List OpencodeEvent)
    (hfin : (runReviewSession sessionId es1).finished = false) :
    (runReviewSession sessionId
        (es1 ++ OpencodeEvent.sessionError sessionId err :: es2)).finished = true
    ∧ (runReviewSession sessionId
        (es1 ++ OpencodeEvent.sessionError sessionId err :: es2)).error
        = some ("Session error: " ++ err)
    ∧ (runReviewSession sessionId
        (es1 ++ OpencodeEvent.sessionError sessionId err :: es2)).commentCount
        = (runReviewSession sessionId es1).commentCount
    ∧ createReviewSessionResult sessionId
        (es1 ++ OpencodeEvent.sessionError sessionId err :: es2)
        = .error ("Session error: " ++ err) := by
  have hstep : reviewStep sessionId (runReviewSession sessionId es1)
      (OpencodeEvent.sessionError sessionId err)
      = { runReviewSession sessionId es1 with
          error := some ("Session error: " ++ err), finished := true } := by
    unfold reviewStep
    simp [hfin]
  have hrun : runReviewSession sessionId
      (es1 ++ OpencodeEvent.sessionError sessionId err :: es2)
      = { runReviewSession sessionId es1 with
          error := some ("Session error: " ++ err), finished := true } := by
    rw [runReviewSession, List.foldl_append, List.foldl_cons]
    rw [show List.foldl (reviewStep sessionId) initialReviewState es1
        = runReviewSession sessionId es1 from rfl]
    rw [hstep]
    exact foldl_reviewStep_finished sessionId _ rfl es2
  refine ⟨by rw [hrun], by rw [hrun], by rw [hrun], ?_⟩
  simp [createReviewSessionResult, hrun]

/-- C9 witness: text deltas, then a session error, then a late completed
tool call: the caller gets the thrown error and the comment count stays 0. -/
theorem review_session_error_terminates_witness :
    (runReviewSession "s" [OpencodeEvent.partUpdated (.text "s" "hi" true)]).finished = false
    ∧ createReviewSessionResult "s"
        ([OpencodeEvent.partUpdated (.text "s" "hi" true)]
          ++ OpencodeEvent.sessionError "s" "boom"
          :: [OpencodeEvent.partUpdated
              (.tool "s" "post_review_comment" "c9" (.completed sampleFinding))])
        = .error ("Session error: " ++ "boom")
    ∧ (runReviewSession "s"
        ([OpencodeEvent.partUpdated (.text "s" "hi" true)]
          ++ OpencodeEvent.sessionError "s" "boom"
          :: [OpencodeEvent.partUpdated
              (.tool "s" "post_review_comment" "c9" (.completed sampleFinding))])).commentCount
        = (runReviewSession "s" [OpencodeEvent.partUpdated (.text "s" "hi" true)]).commentCount := by
  have h := review_session_error_terminates "s" "boom"
    [OpencodeEvent.partUpdated (.text "s" "hi" true)]
    [OpencodeEvent.partUpdated
      (.tool "s" "post_review_comment" "c9" (.completed sampleFinding))]
    rfl
  exact ⟨rfl, h.2.2.2, h.2.2.1⟩

/-! ### Scan loop and resource-exclusion guard (`detectCommands` in
`src/lib/watch.ts`, latest revision) -/

/-- The fields of a GitLab to-do item that the guard phase reads: the
target (merge request) id and the note body. -/
structure TodoItem where
  targetId : Nat
  body : Option String
  deriving DecidableEq, Repr

/-- JS truthiness of `item.body`: `undefined`/`null` and `""` are falsy. -/
def bodyTruthy : Option String → Bool
  | none => false
  | some s => s != ""

/-- The synchronous guard prefix of one mention handler (everything before
its first `await`): skip when the target id is already in
`MRS_IN_PROGRESS`, skip when the body is falsy, otherwise insert the id and
start the workflow.  `acc` is the in-progress set paired with the items
whose workflow was started. -/
def guardStep (acc : List Nat × List TodoItem) (item : TodoItem) :
    List Nat × List TodoItem :=
  if acc.1.contains item.targetId then acc
  else if !bodyTruthy item.body then acc
  else (item.targetId :: acc.1, acc.2 ++ [item])

/-- The guard phase of `detectCommands` over one scan's mentions, in
delivery order: each `async` handler runs synchronously up to its first
`await`, so the guards execute sequentially before any workflow resumes. -/
def detectCommandsGuard (inProgress : List Nat) (items : List TodoItem) :
    List Nat × List TodoItem :=
  items.foldl guardStep (inProgress, [])

/-- Invariant of the guard fold: started items have pairwise-distinct ids,
none of them was in the initial in-progress set, each is recorded in the
current set, and the current set extends the initial one. -/
def GuardInv (S0 : List Nat) (acc : List Nat × List TodoItem) : Prop :=
  (acc.2.map (fun i => i.targetId)).Nodup
  ∧ (∀ i ∈ acc.2, i.targetId ∉ S0)
  ∧ (∀ i ∈ acc.2, i.targetId ∈ acc.1)
  ∧ ∀ x ∈ S0, x ∈ acc.1

theorem guardStep_inv (S0 : List Nat) (acc : List Nat × List TodoItem)
    (item : TodoItem) (h : GuardInv S0 acc) : GuardInv S0 (guardStep acc item) := by
  obtain ⟨h1, h2, h3, h4⟩ := h
  unfold guardStep
  split
  · exact ⟨h1, h2, h3, h4⟩
  · split
    · exact ⟨h1, h2, h3, h4⟩
    · rename_i hcon hbody
      have hnotin : item.targetId ∉ acc.1 := fun hm => hcon (List.elem_eq_true_of_mem hm)
      refine ⟨?_, ?_, ?_, ?_⟩
      · rw [List.map_append]
        apply List.Nodup.append h1 (by simp)
        intro a ha hb
        simp at hb
        subst hb
        obtain ⟨i, hi, hid⟩ := List.mem_map.mp ha
        exact hnotin (hid ▸ h3 i hi)
      · intro i hi
        rcases List.mem_append.mp hi with hi | hi
        · exact h2 i hi
        · simp at hi
          subst hi
          exact fun hmem => hnotin (h4 _ hmem)
      · intro i hi
        rcases List.mem_append.mp hi with hi | hi
        · exact List.mem_cons_of_mem _ (h3 i hi)
        · simp at hi
          subst hi
          exact List.mem_cons_self _ _
      · exact fun x hx => List.mem_cons_of_mem _ (h4 x hx)

theorem guard_foldl_inv (S0 : List Nat) (items : List TodoItem) :
    ∀ acc, GuardInv S0 acc → GuardInv S0 (items.foldl guardStep acc) := by
  induction items with
  | nil => exact fun acc h => h
  | cons a rest ih => exact fun acc h => ih _ (guardStep_inv S0 acc a h)

/-- C2 counterexample: two WorkItems with the same resourceId arrive in one
scan, but both bodies are empty, so both are dropped by the
`if (!item.body) return` guard and zero — not exactly one — workflows
start. -/
theorem same_resource_empty_bodies_counterexample :
    (detectCommandsGuard [] [⟨5, some ""⟩, ⟨5, some ""⟩]).2 = []
    ∧ ¬ (detectCommandsGuard [] [⟨5, some ""⟩, ⟨5, some ""⟩]).2.length = 1 := by
  decide

/-- C2 (amended): the started items of one scan always have
pairwise-distinct resourceIds, none already in progress (mutual
exclusion, at most one workflow per resource); and when two WorkItems with
the same resourceId arrive in one scan, the resource not already in
progress and at least one of the two bodies non-empty, exactly one of them
enters processing. -/
theorem scan_mutual_exclusion (inProgress : List Nat) (items : List TodoItem) :
    ((detectCommandsGuard inProgress items).2.map (fun i => i.targetId)).Nodup
    ∧ (∀ i ∈ (detectCommandsGuard inProgress items).2, i.targetId ∉ inProgress)
    ∧ (∀ a b : TodoItem, a.targetId = b.targetId →
        a.targetId ∉ inProgress →
        (bodyTruthy a.body = true ∨ bodyTruthy b.body = true) →
        (detectCommandsGuard inProgress [a, b]).2.map (fun i => i.targetId)
          = [a.targetId]) := by
  have hbase : GuardInv inProgress (inProgress, ([] : List TodoItem)) :=
    ⟨by simp, by simp, by simp, fun x hx => hx⟩
  have hinv := guard_foldl_inv inProgress items (inProgress, []) hbase
  refine ⟨hinv.1, hinv.2.1, ?_⟩
  intro a b heq hnot hbody
  by_cases hba : bodyTruthy a.body = true
  · have h1 : guardStep (inProgress, []) a = (a.targetId :: inProgress, [a]) := by
      simp [guardStep, hnot, hba]
    have h2 : guardStep (a.targetId :: inProgress, [a]) b
        = (a.targetId :: inProgress, [a]) := by
      simp [guardStep, heq]
    simp [detectCommandsGuard, h1, h2]
  · rw [Bool.not_eq_true] at hba
    rcases hbody with hb | hb
    · rw [hba] at hb
      exact absurd hb (by simp)
    · have hbnot : b.targetId ∉ inProgress := heq ▸ hnot
      have h1 : guardStep (inProgress, []) a = (inProgress, []) := by
        simp [guardStep, hnot, hba]
      have h2 : guardStep (inProgress, []) b = (b.targetId :: inProgress, [b]) := by
        simp [guardStep, hbnot, hb]
      simp [detectCommandsGuard, h1, h2, heq]

/-- C2 witness: two same-target mentions, the first with a non-empty body,
starting from an idle guard set: exactly the first starts. -/
theorem scan_mutual_exclusion_witness :
    ((TodoItem.mk 5 (some "review this")).targetId = (TodoItem.mk 5 (some "hi")).targetId
      ∧ (5 : Nat) ∉ ([] : List Nat)
      ∧ bodyTruthy (some "review this") = true)
    ∧ (detectCommandsGuard [] [⟨5, some "review this"⟩, ⟨5, some "hi"⟩]).2.map
        (fun i => i.targetId) = [5] := by
  refine ⟨⟨rfl, by simp, by decide⟩, ?_⟩
  exact (scan_mutual_exclusion [] [⟨5, some "review this"⟩, ⟨5, some "hi"⟩]).2.2
    ⟨5, some "review this"⟩ ⟨5, some "hi"⟩ rfl (by simp) (Or.inl (by decide))

/-- The complete lifecycle of one mention handler of `detectCommands`
(latest `watch.ts` revision): the guard phase inserts the target id, then
the classification and command workflow run (`throws` records whether that
part rejects), and the final `MRS_IN_PROGRESS.delete(item.target.id)` line
runs only when no exception was thrown — the handler body has no
`try`/`finally` around it.  Returns the in-progress set after the handler
settles, paired with whether a workflow was started. -/
def processMention (inProgress : List Nat) (item : TodoItem) (throws : Bool) :
    List Nat × Bool :=
  if inProgress.contains item.targetId then (inProgress, false)
  else if !bodyTruthy item.body then (inProgress, false)
  else
    let inProgress2 := item.targetId :: inProgress
    if throws then (inProgress2, true)
    else (inProgress2.erase item.targetId, true)

/-- C3: evaluation at the failing input.  A mention of MR 5 whose workflow
throws leaves `5` in `MRS_IN_PROGRESS` for good — the delete is skipped
because the rejection propagates past it into `Promise.allSettled` — while
a normally completing workflow removes it.  The resourceId is therefore
NOT removed on the error exit path, contradicting the claim (which matches
the earlier revision of `watch.ts`, where the release was in a
`.finally()`). -/
theorem lock_leak_on_throw :
    (processMention [] ⟨5, some "review"⟩ true).1 = [5]
    ∧ (processMention [] ⟨5, some "review"⟩ false).1 = [] := by
  decide

end Bibus
